import Mathlib

/-!
Verification development for the `humanize-ai-detector` pattern scanner
(`humanize.js`).  The JavaScript core is shallowly embedded:

* texts are `List Char` (positions are character offsets, as in the
  UTF-16 code-unit offsets of the source for the BMP texts considered);
* each regular expression of the pattern catalog is translated into a
  small regex AST `Re` covering exactly the constructs the catalog uses
  (literals, `\s`, `\w`, `.`, small character classes, alternation,
  option, greedy star over a character class, and the zero-width word
  boundary `\b`), matched with JavaScript semantics: leftmost start,
  backtracking order (left alternative first, greedy star), global
  non-overlapping scanning as done by `String.matchAll`;
* JavaScript numbers that can be `NaN`/`Infinity` are modelled by
  `JSVal` over exact rationals, with `x / 0 = Infinity`, `0 / 0 = NaN`,
  `Math.round x = ⌊x + 1/2⌋` and the propagation rules of `Math.min`;
* the analysis pipeline `analyzeText` / `getContext` / `calculateScore`
  / `getScoreLabel` is translated line by line from `humanize.js`.
-/

set_option maxRecDepth 8192

/-! ## Characters: JavaScript `\s`, `\w`, case folding -/

/-- White-space characters recognised by JavaScript regex `\s` and by
`String.prototype.split(/\s+/)`. -/
def wsChars : List Char :=
  [Char.ofNat 9, Char.ofNat 10, Char.ofNat 11, Char.ofNat 12, Char.ofNat 13,
   Char.ofNat 32, Char.ofNat 160, Char.ofNat 5760, Char.ofNat 8192,
   Char.ofNat 8193, Char.ofNat 8194, Char.ofNat 8195, Char.ofNat 8196,
   Char.ofNat 8197, Char.ofNat 8198, Char.ofNat 8199, Char.ofNat 8200,
   Char.ofNat 8201, Char.ofNat 8202, Char.ofNat 8232, Char.ofNat 8233,
   Char.ofNat 8239, Char.ofNat 8287, Char.ofNat 12288, Char.ofNat 65279]

/-- JavaScript white space test (`\s`). -/
def jsWs (c : Char) : Bool := decide (c ∈ wsChars)

/-- JavaScript word-character test (`\w`, i.e. `[A-Za-z0-9_]`). -/
def jsWordChar (c : Char) : Bool :=
  (48 ≤ c.toNat && c.toNat ≤ 57) || (65 ≤ c.toNat && c.toNat ≤ 90) ||
  (97 ≤ c.toNat && c.toNat ≤ 122) || c.toNat == 95

/-- ASCII lower casing, the canonicalisation relevant to the catalog's
case-insensitive (`i` flag) patterns. -/
def lowerC (c : Char) : Char :=
  if 65 ≤ c.toNat && c.toNat ≤ 90 then Char.ofNat (c.toNat + 32) else c

/-- The apostrophe character (used by patterns such as `It'?s`). -/
def aposC : Char := Char.ofNat 39

/-- The em dash character (U+2014), first pattern of the `em_dash`
category. -/
def emDashC : Char := Char.ofNat 8212

/-! ## Regex AST -/

/-- Single-character matchers appearing in the catalog's regexes. -/
inductive CharCls where
  | lit (c : Char)
  | ws
  | wordc
  | dot
  | oneOf (cs : List Char)
  | noneOf (cs : List Char)
deriving DecidableEq, Repr

/-- Does character class `cl` match character `c`?  `ci` is the
case-insensitivity (`i`) flag of the enclosing regex. -/
def clsMatch (ci : Bool) (cl : CharCls) (c : Char) : Bool :=
  match cl with
  | .lit l => if ci then lowerC l == lowerC c else l == c
  | .ws => jsWs c
  | .wordc => jsWordChar c
  | .dot => !(c == Char.ofNat 10 || c == Char.ofNat 13 ||
              c == Char.ofNat 8232 || c == Char.ofNat 8233)
  | .oneOf cs => if ci then cs.any (fun x => lowerC x == lowerC c)
                 else cs.any (fun x => x == c)
  | .noneOf cs => if ci then !(cs.any (fun x => lowerC x == lowerC c))
                  else !(cs.any (fun x => x == c))

/-- Regex AST: exactly the constructs used by the PATTERNS catalog.
`starC` is a greedy Kleene star over a single character class (every
star in the catalog — `\s*`, `.*`, and the stars arising from `+` —
has this form). -/
inductive Re where
  | eps
  | cls (c : CharCls)
  | seq (a b : Re)
  | alt (a b : Re)
  | starC (c : CharCls)
  | wb
deriving DecidableEq, Repr

/-- Greedy `r?`. -/
def optR (r : Re) : Re := Re.alt r Re.eps

/-- Greedy `c+` for a character class, desugared as `c c*`. -/
def plus1 (c : CharCls) : Re := Re.seq (Re.cls c) (Re.starC c)

/-! ## The matcher -/

/-- State of a match in progress: the character just before the current
position (`none` at the start of the text), the remaining text, and the
current absolute position. -/
structure MState where
  prev : Option Char
  rest : List Char
  pos : Nat
deriving DecidableEq, Repr

/-- Order-preserving concat-map, used for sequencing alternatives in
backtracking order. -/
def bindL (l : List α) (f : α → List β) : List β :=
  match l with
  | [] => []
  | a :: as => f a ++ bindL as f

/-- Is `c` a word character (`none` counts as not a word character, as
at the edges of the text)? -/
def oWord : Option Char → Bool
  | none => false
  | some c => jsWordChar c

/-- The word-boundary test `\b`: exactly one of the two surrounding
characters is a word character. -/
def wordB (pv : Option Char) (rest : List Char) : Bool :=
  oWord pv != oWord rest.head?

/-- States reachable by consuming 0, 1, 2, … characters of class `c`,
in that order (the walk stops at the first non-matching character). -/
def starWalk (ci : Bool) (c : CharCls) : Option Char → List Char → Nat → List MState
  | pv, [], p => [⟨pv, [], p⟩]
  | pv, ch :: rs, p =>
    ⟨pv, ch :: rs, p⟩ ::
      (if clsMatch ci c ch then starWalk ci c (some ch) rs (p + 1) else [])

/-- All states in which `r` can finish a match beginning at state `st`,
in JavaScript backtracking preference order (first = preferred: left
alternative first, greedy star longest first). -/
def ends (ci : Bool) : Re → MState → List MState
  | .eps, st => [st]
  | .cls c, st =>
    match st.rest with
    | [] => []
    | ch :: rs => if clsMatch ci c ch then [⟨some ch, rs, st.pos + 1⟩] else []
  | .seq a b, st => bindL (ends ci a st) (ends ci b)
  | .alt a b, st => ends ci a st ++ ends ci b st
  | .starC c, st => (starWalk ci c st.prev st.rest st.pos).reverse
  | .wb, st => if wordB st.prev st.rest then [st] else []

/-- Leftmost search as done by `RegExp.prototype.exec`: try to match at
the current position, else advance one character; returns the start
state and the (preferred) end state of the first match. -/
def seekA (ci : Bool) (r : Re) : Option Char → List Char → Nat → Option (MState × MState)
  | pv, [], p =>
    ((ends ci r ⟨pv, [], p⟩).head?).map (fun en => (⟨pv, [], p⟩, en))
  | pv, ch :: rs, p =>
    match (ends ci r ⟨pv, ch :: rs, p⟩).head? with
    | some en => some (⟨pv, ch :: rs, p⟩, en)
    | none => seekA ci r (some ch) rs (p + 1)

/-- Global scanning as done by `String.prototype.matchAll`: repeatedly
`exec`, resuming after each match (bumping by one character after an
empty match).  `fuel` bounds the number of matches; `scanAll` supplies
more fuel than any scan can use. -/
def scanAux (ci : Bool) (r : Re) : Nat → Option Char → List Char → Nat → List (Nat × Nat)
  | 0, _, _, _ => []
  | fuel + 1, pv, rest, p =>
    match seekA ci r pv rest p with
    | none => []
    | some (sst, est) =>
      (sst.pos, est.pos) ::
        (if sst.pos < est.pos then
          scanAux ci r fuel est.prev est.rest est.pos
        else
          match sst.rest with
          | [] => []
          | ch :: rs => scanAux ci r fuel (some ch) rs (sst.pos + 1))

/-- All (start, end) position pairs of the global match of `r` against
`t`, in scan order. -/
def scanAll (ci : Bool) (t : List Char) (r : Re) : List (Nat × Nat) :=
  scanAux ci r (t.length + 2) none t 0

/-! ## Context windows and word counting -/

/-- The ellipsis marker `'...'` used by `getContext`. -/
def ell : List Char := ['.', '.', '.']

/-- Characters `[s, e)` of `t` (JavaScript `text.slice(s, e)` for
`0 ≤ s ≤ e`). -/
def sliceList (t : List Char) (s e : Nat) : List Char := (t.take e).drop s

/-- Translation of `getContext(text, index, matchLength)` from
`humanize.js` (context size 40): slice from `max(0, index - 40)` to
`min(text.length, index + matchLength + 40)`, with `'...'` prepended
when the slice starts after the beginning of the text and appended when
it stops before its end. -/
def getContext (t : List Char) (index mlen : Nat) : List Char :=
  let start := (max 0 ((index : ℤ) - 40)).toNat
  let stop := min t.length (index + mlen + 40)
  let ctx := sliceList t start stop
  (if 0 < start then ell else []) ++ ctx ++ (if stop < t.length then ell else [])

/-- Helper for `countWords`: counts maximal runs of non-white-space
characters; the flag records whether a run is in progress. -/
def cwAux : List Char → Bool → Nat
  | [], _ => 0
  | c :: cs, inWord =>
    if jsWs c then cwAux cs false
    else (if inWord then 0 else 1) + cwAux cs true

/-- Translation of the word count of `analyzeText`:
`text.split(/\s+/).filter(w => w.length > 0).length`, i.e. the number
of maximal runs of non-white-space characters. -/
def countWords (t : List Char) : Nat := cwAux t false

/-! ## Data model -/

/-- One match record (`{text, index, context}` in `analyzeText`). -/
structure MatchRec where
  text : List Char
  index : Nat
  context : List Char
deriving DecidableEq, Repr

/-- Per-category aggregate stored in `results.patterns[key]`; the `key`
field records the catalog key the entry is stored under, and `matchList`
models the `matches` array of the source. -/
structure CatResult where
  key : String
  name : String
  description : String
  matchList : List MatchRec
  weight : Nat
  count : Nat
deriving DecidableEq, Repr

/-- Result of `analyzeText`: included categories in insertion order,
the flat list of matches tagged with category display names
(`allMatches` models the `matches` array of the source), the weighted
total, and the word count. -/
structure AnalysisResult where
  patterns : List CatResult
  allMatches : List (MatchRec × String)
  totalWeight : Nat
  wordCount : Nat
deriving DecidableEq, Repr

/-- One catalog category: key, display name, description, weight, and
the ordered pattern list; each pattern carries its case-insensitivity
flag (`true` for `gi`, `false` for `g` alone). -/
structure PatCategory where
  key : String
  name : String
  description : String
  weight : Nat
  pats : List (Bool × Re)
deriving DecidableEq, Repr

/-! ## Catalog construction helpers -/

/-- Sequence a list of regexes. -/
def rOf (l : List Re) : Re := l.foldr Re.seq Re.eps

/-- Literal string (each character a `lit` class; case folding is
applied at match time when the `i` flag is set). -/
def lits (s : String) : Re := rOf (s.data.map (fun c => Re.cls (CharCls.lit c)))

/-- Alternation of a non-empty list, tried left to right. -/
def altL : List Re → Re
  | [] => Re.eps
  | x :: xs => xs.foldl Re.alt x

/-- Word boundary shorthand. -/
def B : Re := Re.wb

/-- One or more white-space characters (`\s+`). -/
def sp1 : Re := plus1 CharCls.ws

/-- Zero or more white-space characters (`\s*`). -/
def sp0 : Re := Re.starC CharCls.ws

/-- One or more word characters (`\w+`). -/
def wp1 : Re := plus1 CharCls.wordc

/-- Greedy `.*`. -/
def anyStar : Re := Re.starC CharCls.dot

/-- Optional plural `s?`. -/
def optS : Re := optR (Re.cls (CharCls.lit 's'))

/-- Optional apostrophe (`'?`). -/
def optApos : Re := optR (Re.cls (CharCls.lit aposC))

/-- Pattern `\bword\b`. -/
def bword (s : String) : Re := rOf [B, lits s, B]

/-- Pattern `\bw1\s+w2\s+…\s+wn\b`. -/
def bphrase (l : List String) : Re := rOf ([B] ++ (l.map lits).intersperse sp1 ++ [B])

/-- The alternation `(its|the|their)`. -/
def itsTheTheir : Re := altL [lits "its", lits "the", lits "their"]

/-- The alternation `(a|an|the)`. -/
def aAnThe : Re := altL [lits "a", lits "an", lits "the"]

/-! ## The pattern catalog (PATTERNS of humanize.js) -/

/-- Category 1: Inflated significance. -/
def inflatedCat : PatCategory :=
  ⟨"inflated_significance", "Inflated Significance",
   "Puffs up importance with vague significance claims", 3,
   [(true, rOf [B, lits "stand", optS, sp1, lits "as", B]),
    (true, rOf [B, lits "serve", optS, sp1, lits "as", B]),
    (true, rOf [B, altL [lits "is", lits "are"], sp1, lits "a", sp1, lits "testament", B]),
    (true, rOf [B, lits "underscore", optS, sp1, itsTheTheir, sp1, lits "importance", B]),
    (true, rOf [B, lits "highlight", optS, sp1, itsTheTheir, sp1, lits "significance", B]),
    (true, rOf [B, lits "reflect", optS, sp1, lits "broader", B]),
    (true, rOf [B, lits "symboliz", altL [rOf [lits "e", optS], lits "ing"], sp1,
                itsTheTheir, sp1, altL [lits "ongoing", lits "enduring", lits "lasting"], B]),
    (true, bphrase ["setting", "the", "stage", "for"]),
    (true, rOf [B, lits "marking", sp1, lits "a", sp1,
                altL [lits "pivotal", lits "key", lits "crucial"], sp1, lits "moment", B]),
    (true, rOf [B, lits "represent", optS, sp1, lits "a", sp1, lits "shift", B]),
    (true, bphrase ["evolving", "landscape"]),
    (true, bphrase ["indelible", "mark"]),
    (true, bphrase ["deeply", "rooted"])]⟩

/-- Category 2: Superficial -ing analyses. -/
def superficialCat : PatCategory :=
  ⟨"superficial_ing", "Superficial -ing Endings",
   "Tacks -ing phrases for fake depth", 2,
   [(true, rOf [lits ",", sp0,
                altL [lits "highlighting", lits "underscoring", lits "emphasizing",
                      lits "reflecting", lits "symbolizing", lits "showcasing",
                      lits "encompassing", lits "cultivating", lits "fostering"], sp1]),
    (true, rOf [lits ",", sp0, lits "ensuring", sp1, optR (rOf [lits "that", sp1]),
                plus1 (CharCls.noneOf [',', '.']), Re.cls (CharCls.oneOf [',', '.'])]),
    (true, rOf [lits ",", sp0, lits "contributing", sp1, lits "to", sp1])]⟩

/-- Category 3: Promotional language. -/
def promotionalCat : PatCategory :=
  ⟨"promotional", "Promotional Language",
   "Advertisement-like, non-neutral tone", 3,
   [(true, rOf [B, lits "boast", optS, sp1, lits "a", B]),
    (true, bword "vibrant"),
    (true, bword "profound"),
    (true, bword "groundbreaking"),
    (true, bword "renowned"),
    (true, bword "breathtaking"),
    (true, bword "must-visit"),
    (true, bword "stunning"),
    (true, bword "nestled"),
    (true, bphrase ["in", "the", "heart", "of"]),
    (true, rOf [B, lits "rich", sp1, optR (rOf [lits "cultural", sp1]), lits "heritage", B]),
    (true, bphrase ["natural", "beauty"]),
    (true, rOf [B, lits "exemplif", altL [lits "y", lits "ies"], B]),
    (true, bphrase ["commitment", "to"])]⟩

/-- Category 4: AI vocabulary words (`Additionally` is the one
case-sensitive pattern of the catalog besides those noted below). -/
def aiVocabCat : PatCategory :=
  ⟨"ai_vocabulary", "AI Vocabulary",
   "Words overused by AI models", 2,
   [(false, bword "Additionally"),
    (true, bphrase ["align", "with"]),
    (true, bword "crucial"),
    (true, bword "delve"),
    (true, bword "enduring"),
    (true, rOf [B, lits "enhance", optR (Re.cls (CharCls.oneOf ['d', 's'])), B]),
    (true, bword "fostering"),
    (true, rOf [B, lits "garner", optR (Re.cls (CharCls.oneOf ['s'])), B]),
    (true, bword "interplay"),
    (true, rOf [B, lits "intricat", altL [lits "e", lits "es", lits "ies"], B]),
    (true, bword "landscape"),
    (true, bword "pivotal"),
    (true, rOf [B, lits "showcas", altL [lits "e", lits "es", lits "ing"], B]),
    (true, bword "tapestry"),
    (true, rOf [B, lits "underscore", optR (Re.cls (CharCls.oneOf ['s', 'd'])), B]),
    (true, bword "valuable"),
    (true, rOf [B, lits "seamless", optR (lits "ly"), B]),
    (true, bword "robust"),
    (true, rOf [B, lits "leverag", altL [lits "e", lits "es", lits "ing"], B]),
    (true, rOf [B, lits "facilitat", altL [lits "e", lits "es", lits "ing"], B]),
    (true, rOf [B, lits "optimiz", altL [lits "e", lits "es", lits "ing"], B]),
    (true, bword "holistic"),
    (true, rOf [B, lits "synerg", altL [lits "y", lits "ies", lits "istic"], B]),
    (true, bword "paradigm"),
    (true, bword "meticulously"),
    (true, bword "comprehensive"),
    (true, rOf [B, lits "navigat", altL [lits "e", lits "es", lits "ing"], B]),
    (true, bword "unravel"),
    (true, bphrase ["embark", "on"]),
    (true, bphrase ["delve", "into"]),
    (true, bword "testament"),
    (true, bword "undeniably"),
    (true, bword "intricate"),
    (true, bword "pivot")]⟩

/-- Category 5: Vague attributions. -/
def vagueCat : PatCategory :=
  ⟨"vague_attribution", "Vague Attributions",
   "Attributes claims to unnamed experts", 3,
   [(true, rOf [B, altL [lits "industry", lits "some", lits "many"], sp1,
                lits "expert", optS, sp1,
                altL [lits "believe", lits "argue", lits "suggest", lits "say"], B]),
    (true, bphrase ["observers", "have", "cited"]),
    (true, rOf [B, altL [lits "some", lits "many"], sp1, lits "critics", sp1, lits "argue", B]),
    (true, rOf [B, lits "several", sp1, altL [lits "sources", lits "publications"], B]),
    (true, rOf [B, lits "widely", sp1,
                altL [lits "believed", lits "considered", lits "regarded"], B])]⟩

/-- Category 6: Negative parallelisms. -/
def negParCat : PatCategory :=
  ⟨"negative_parallelism", "Negative Parallelism",
   "Overused not-only-but-also constructions", 2,
   [(true, rOf [B, lits "not", sp1, lits "only", B, anyStar, B, lits "but", sp1,
                optR (rOf [lits "also", sp1])]),
    (true, rOf [B, lits "it", optApos, lits "s", sp1, lits "not", sp1, lits "just",
                sp1, lits "about", B, anyStar, B, lits "it", optApos, lits "s", sp1,
                optR (rOf [lits "about", sp1])]),
    (true, rOf [B, lits "it", optApos, lits "s", sp1, lits "not", sp1,
                altL [lits "merely", lits "simply"], B, anyStar, B,
                lits "it", optApos, lits "s", B])]⟩

/-- Category 7: Rule of three. -/
def ruleOfThreeCat : PatCategory :=
  ⟨"rule_of_three", "Rule of Three",
   "Forced groupings of three items", 1,
   [(true, rOf [B, wp1, lits ",", sp1, wp1, lits ",", sp1, lits "and", sp1, wp1, B])]⟩

/-- Category 8: Em dash overuse. -/
def emDashCat : PatCategory :=
  ⟨"em_dash", "Em Dash Overuse",
   "Excessive use of em dashes", 1,
   [(false, Re.cls (CharCls.lit emDashC)),
    (false, lits "--")]⟩

/-- Category 9: Copula avoidance. -/
def copulaCat : PatCategory :=
  ⟨"copula_avoidance", "Copula Avoidance",
   "Substitutes serves-as for simple is", 2,
   [(true, rOf [B, lits "serve", optS, sp1, lits "as", sp1, aAnThe, B]),
    (true, rOf [B, lits "stand", optS, sp1, lits "as", sp1, aAnThe, B]),
    (true, rOf [B, lits "mark", optS, sp1, aAnThe, B]),
    (true, rOf [B, lits "represent", optS, sp1, aAnThe, B]),
    (true, rOf [B, lits "feature", optS, sp1, aAnThe, B]),
    (true, rOf [B, lits "offer", optS, sp1, aAnThe, B])]⟩

/-- Category 10: Sycophantic tone (`Of course!` and `Certainly!` are
case-sensitive). -/
def sycophanticCat : PatCategory :=
  ⟨"sycophantic", "Sycophantic Tone",
   "Overly positive, people-pleasing language", 3,
   [(true, rOf [B, lits "great", sp1, lits "question", optR (Re.cls (CharCls.lit '!')), B]),
    (true, rOf [B, lits "excellent", sp1, lits "point", optR (Re.cls (CharCls.lit '!')), B]),
    (true, rOf [B, lits "you", optApos, lits "re", sp1, lits "absolutely", sp1, lits "right", B]),
    (false, rOf [B, lits "Of", sp1, lits "course", Re.cls (CharCls.lit '!'), B]),
    (false, rOf [B, lits "Certainly", Re.cls (CharCls.lit '!'), B]),
    (true, bphrase ["i", "hope", "this", "helps"]),
    (true, bphrase ["let", "me", "know", "if"]),
    (true, rOf [B, lits "i", altL [rOf [Re.cls (CharCls.lit aposC), lits "d"],
                                   rOf [Re.cls (CharCls.lit ' '), lits "would"]],
                sp1, lits "be", sp1, lits "happy", sp1, lits "to", B]),
    (true, bphrase ["would", "you", "like", "me", "to"]),
    (true, bphrase ["happy", "to", "help"])]⟩

/-- Category 11: Filler phrases. -/
def fillerCat : PatCategory :=
  ⟨"filler", "Filler Phrases",
   "Unnecessary wordy constructions", 2,
   [(true, bphrase ["in", "order", "to"]),
    (true, bphrase ["due", "to", "the", "fact", "that"]),
    (true, bphrase ["at", "this", "point", "in", "time"]),
    (true, bphrase ["in", "the", "event", "that"]),
    (true, bphrase ["has", "the", "ability", "to"]),
    (true, bphrase ["it", "is", "important", "to", "note", "that"]),
    (true, bphrase ["it", "should", "be", "noted", "that"]),
    (true, bphrase ["it", "is", "worth", "mentioning", "that"])]⟩

/-- Category 12: Generic conclusions. -/
def genericCat : PatCategory :=
  ⟨"generic_conclusion", "Generic Conclusions",
   "Vague upbeat endings", 2,
   [(true, bphrase ["the", "future", "looks", "bright"]),
    (true, rOf [B, lits "exciting", sp1, lits "times", sp1,
                altL [lits "lie", lits "lay"], sp1, lits "ahead", B]),
    (true, bphrase ["continue", "their", "journey"]),
    (true, bphrase ["major", "step", "in", "the", "right", "direction"]),
    (true, bphrase ["pave", "the", "way", "for"])]⟩

/-- Category 13: Challenges and prospects (`Future Outlook` is
case-sensitive). -/
def challengesCat : PatCategory :=
  ⟨"challenges_prospects", "Challenges & Prospects",
   "Formulaic structure common in AI text", 2,
   [(true, rOf [B, lits "despite", sp1, altL [lits "its", lits "these", lits "their"],
                sp1, wp1, lits ",", sp1, lits "face", optS, sp1, lits "several",
                sp1, lits "challenges", B]),
    (true, bphrase ["despite", "these", "challenges"]),
    (false, rOf [B, lits "Future", sp1, lits "Outlook", B]),
    (true, rOf [B, lits "challenges", sp1, lits "and", sp1,
                altL [lits "legacy", lits "opportunities", lits "future"], B])]⟩

/-- The full catalog, in declaration (iteration) order. -/
def PATTERNS : List PatCategory :=
  [inflatedCat, superficialCat, promotionalCat, aiVocabCat, vagueCat,
   negParCat, ruleOfThreeCat, emDashCat, copulaCat, sycophanticCat,
   fillerCat, genericCat, challengesCat]

/-! ## analyzeText -/

/-- Builds one match record as `analyzeText` does: matched substring,
start index, and surrounding context. -/
def mkMatch (t : List Char) (se : Nat × Nat) : MatchRec :=
  ⟨sliceList t se.1 se.2, se.1, getContext t se.1 (se.2 - se.1)⟩

/-- All matches of one category against `t`: each pattern of the
category is scanned globally, in pattern order (the inner loop of
`analyzeText`). -/
def categoryMatches (t : List Char) (cat : PatCategory) : List MatchRec :=
  bindL cat.pats (fun pr => (scanAll pr.1 t pr.2).map (mkMatch t))

/-- The category loop of `analyzeText`: produces the included category
results (in catalog order), the flattened tagged match list, and the
weighted total.  Categories without matches contribute nothing. -/
def scanCats (t : List Char) : List PatCategory → List CatResult × List (MatchRec × String) × Nat
  | [] => ([], [], 0)
  | cat :: others =>
    let cms := categoryMatches t cat
    let r := scanCats t others
    if 0 < cms.length then
      (⟨cat.key, cat.name, cat.description, cms, cat.weight, cms.length⟩ :: r.1,
       cms.map (fun m => (m, cat.name)) ++ r.2.1,
       cat.weight * cms.length + r.2.2)
    else r

/-- Translation of `analyzeText(text)` from `humanize.js`. -/
def analyzeText (t : List Char) : AnalysisResult :=
  ⟨(scanCats t PATTERNS).1, (scanCats t PATTERNS).2.1,
   (scanCats t PATTERNS).2.2, countWords t⟩

/-! ## Scoring -/

/-- A JavaScript number as produced by the scoring pipeline: an exact
rational, `NaN`, or a signed infinity. -/
inductive JSVal where
  | num (q : ℚ)
  | nan
  | inf
  | neginf
deriving DecidableEq, Repr

/-- JavaScript division of the two non-negative integers
`totalWeight / wordCount`: `0 / 0` is `NaN` and `x / 0` is `Infinity`
for `x > 0`. -/
def jsDivNat (a b : Nat) : JSVal :=
  if b = 0 then (if a = 0 then JSVal.nan else JSVal.inf)
  else JSVal.num ((a : ℚ) / (b : ℚ))

/-- Multiplication by a positive rational constant (`NaN` and the
infinities are absorbing). -/
def jsMulPos (v : JSVal) (c : ℚ) : JSVal :=
  match v with
  | .num q => .num (q * c)
  | .nan => .nan
  | .inf => .inf
  | .neginf => .neginf

/-- JavaScript `Math.round`: `⌊x + 1/2⌋` on finite values, fixing `NaN`
and the infinities. -/
def jsRound (v : JSVal) : JSVal :=
  match v with
  | .num q => .num ((⌊q + 1/2⌋ : ℤ) : ℚ)
  | .nan => .nan
  | .inf => .inf
  | .neginf => .neginf

/-- JavaScript `Math.min(100, x)`: `NaN` propagates, `Infinity` caps to
`100`. -/
def jsMin100 (v : JSVal) : JSVal :=
  match v with
  | .num q => .num (if q ≤ 100 then q else 100)
  | .nan => .nan
  | .inf => .num 100
  | .neginf => .neginf

/-- Translation of `calculateScore(analysis)` from `humanize.js`:
`Math.min(100, Math.round((totalWeight / wordCount) * 100 * 5))`.
There is no guard for `wordCount = 0`. -/
def calculateScore (a : AnalysisResult) : JSVal :=
  jsMin100 (jsRound (jsMulPos (jsMulPos (jsDivNat a.totalWeight a.wordCount) 100) 5))

/-- The five qualitative labels returned by `getScoreLabel` (the source
strings carry emoji prefixes: `veryHuman` stands for "Very Human",
`mostlyHuman` for "Mostly Human", `someAI` for "Some AI Patterns",
`likelyAI` for "Likely AI", `veryAI` for "Very AI-like"). -/
inductive ScoreLabel where
  | veryHuman
  | mostlyHuman
  | someAI
  | likelyAI
  | veryAI
deriving DecidableEq, Repr

/-- JavaScript `x <= c` for a score value: false when `x` is `NaN` or
`+Infinity`, true for `-Infinity`. -/
def jsLe (v : JSVal) (c : ℚ) : Bool :=
  match v with
  | .num q => decide (q ≤ c)
  | .nan => false
  | .inf => false
  | .neginf => true

/-- Translation of `getScoreLabel(score)` from `humanize.js`. -/
def getScoreLabel (s : JSVal) : ScoreLabel :=
  if jsLe s 10 then .veryHuman
  else if jsLe s 25 then .mostlyHuman
  else if jsLe s 50 then .someAI
  else if jsLe s 75 then .likelyAI
  else .veryAI

/-! ## Definitions used by specification statements -/

/-- The category entry `analyzeText` stores for a category with at
least one match. -/
def mkCatResult (t : List Char) (c : PatCategory) : CatResult :=
  ⟨c.key, c.name, c.description, categoryMatches t c, c.weight,
   (categoryMatches t c).length⟩

/-- Character-class check: the class matches no white-space character
(under either case flag). -/
def rejectsAllWS (c : CharCls) : Bool :=
  wsChars.all (fun ch => !clsMatch true c ch && !clsMatch false c ch)

/-- Conservative syntactic check that every string matched by the regex
contains at least one non-white-space character. -/
def nonWSreq : Re → Bool
  | .eps => false
  | .cls c => rejectsAllWS c
  | .seq a b => nonWSreq a || nonWSreq b
  | .alt a b => nonWSreq a && nonWSreq b
  | .starC _ => false
  | .wb => false

/-- Score formula exactly as the specification states it:
`round(min(100, max(0, ((totalWeight / max(wordCount, 1)) * 100) * 5)))`
with `round x = ⌊x + 1/2⌋`. -/
def specScore (tw wc : Nat) : ℤ :=
  ⌊min 100 (max 0 (((tw : ℚ) / ((max wc 1 : ℕ) : ℚ)) * 100 * 5)) + 1/2⌋

/-- Context window exactly as the specification describes it: the
substring extending 40 characters before the match start and 40 after
the match end, clipped to the document bounds, with a leading ellipsis
exactly when text before the window was cut off and a trailing ellipsis
exactly when text after the window was cut off. -/
def contextSpec (t : List Char) (index mlen : Nat) : List Char :=
  let lo := if index < 40 then 0 else index - 40
  let hi := if index + mlen + 40 ≤ t.length then index + mlen + 40 else t.length
  (if lo ≠ 0 then ell else []) ++ ((t.drop lo).take (hi - lo)) ++
    (if hi ≠ t.length then ell else [])

/-- The high-AI scenario input text of the specification. -/
def c6text : List Char :=
  ("This groundbreaking innovation serves as a testament to our commitment to excellence").data

/-! ## Scorer lemmas -/

/-- Normal form of `calculateScore` when the word count is positive. -/
theorem jsMin100_num (q : ℚ) : jsMin100 (JSVal.num q) = JSVal.num (min 100 q) := by
  simp only [jsMin100]
  rw [min_comm, min_def]

theorem calculateScore_of_pos (a : AnalysisResult) (h : a.wordCount ≠ 0) :
    calculateScore a =
      JSVal.num ((min 100 ⌊(a.totalWeight : ℚ) / (a.wordCount : ℚ) * 100 * 5 + 1/2⌋ : ℤ) : ℚ) := by
  unfold calculateScore jsDivNat
  rw [if_neg h]
  simp only [jsMulPos, jsRound, jsMin100_num]
  push_cast
  ring_nf

/-- Rounding then capping at 100 agrees with the specification's
capping-then-rounding, on non-negative inputs. -/
theorem min_round_comm (x : ℚ) (hx : 0 ≤ x) :
    min (100 : ℤ) ⌊x + 1/2⌋ = ⌊min 100 (max 0 x) + 1/2⌋ := by
  rw [max_eq_right hx]
  rcases le_total x 100 with h | h
  · rw [min_eq_right h, min_eq_right]
    have h1 : x + 1/2 < ((101 : ℤ) : ℚ) := by push_cast; linarith
    have h2 : ⌊x + 1/2⌋ < 101 := Int.floor_lt.mpr h1
    omega
  · rw [min_eq_left h, min_eq_left]
    · norm_num
    · have h1 : ((100 : ℤ) : ℚ) ≤ x + 1/2 := by push_cast; linarith
      have h2 : (100 : ℤ) ≤ ⌊x + 1/2⌋ := Int.le_floor.mpr h1
      have h3 : ⌊(100 : ℚ) + 1/2⌋ = 100 := by
        rw [Int.floor_eq_iff] ; norm_num
      omega

/-- C3 (amended part): on every analysis result with a positive word
count, `calculateScore` returns exactly the specification formula
`round(min(100, max(0, ((totalWeight / max(wordCount, 1)) * 100) * 5)))`. -/
theorem calculateScore_formula (a : AnalysisResult) (h : 1 ≤ a.wordCount) :
    calculateScore a = JSVal.num ((specScore a.totalWeight a.wordCount : ℤ) : ℚ) := by
  rw [calculateScore_of_pos a (by omega)]
  unfold specScore
  rw [max_eq_left h]
  congr 1
  exact_mod_cast min_round_comm ((a.totalWeight : ℚ) / (a.wordCount : ℚ) * 100 * 5)
    (by positivity)

/-- C3 (counterexample): at the analysis result of empty input
(`wordCount = 0`, `totalWeight = 0`), the code returns `NaN`, not the
value of the specification formula (which is 0). -/
theorem calculateScore_formula_fails_at_zero :
    calculateScore (⟨[], [], 0, 0⟩ : AnalysisResult) ≠
      JSVal.num ((specScore 0 0 : ℤ) : ℚ) := by decide

/-- C3 (witness): the amended formula theorem applied at a concrete
analysis result with word count 2 and total weight 3. -/
theorem calculateScore_formula_witness :
    1 ≤ (⟨[], [], 3, 2⟩ : AnalysisResult).wordCount ∧
      calculateScore (⟨[], [], 3, 2⟩ : AnalysisResult) =
        JSVal.num ((specScore 3 2 : ℤ) : ℚ) :=
  ⟨by decide, calculateScore_formula ⟨[], [], 3, 2⟩ (by decide)⟩

/-! ## Label theorems -/

/-- C4: on integer scores up to 100, `getScoreLabel` realises exactly
the five documented bands `[0,10]`, `[11,25]`, `[26,50]`, `[51,75]`,
`[76,100]` (in particular each boundary score falls in the documented
band, e.g. 50 is "Some AI Patterns" and 51 is "Likely AI"). -/
theorem getScoreLabel_bands (n : ℕ) :
    (n ≤ 10 → getScoreLabel (JSVal.num n) = ScoreLabel.veryHuman) ∧
    (11 ≤ n → n ≤ 25 → getScoreLabel (JSVal.num n) = ScoreLabel.mostlyHuman) ∧
    (26 ≤ n → n ≤ 50 → getScoreLabel (JSVal.num n) = ScoreLabel.someAI) ∧
    (51 ≤ n → n ≤ 75 → getScoreLabel (JSVal.num n) = ScoreLabel.likelyAI) ∧
    (76 ≤ n → n ≤ 100 → getScoreLabel (JSVal.num n) = ScoreLabel.veryAI) := by
  have hle : ∀ c : ℚ, (n : ℚ) ≤ c → jsLe (JSVal.num n) c = true := by
    intro c hc
    simp only [jsLe, decide_eq_true_eq]
    exact hc
  have hgt : ∀ c : ℚ, c < (n : ℚ) → ¬ jsLe (JSVal.num n) c = true := by
    intro c hc
    simp only [jsLe, decide_eq_true_eq, not_le]
    exact hc
  have cast_le : ∀ m : ℕ, n ≤ m → (n : ℚ) ≤ (m : ℚ) := fun m hm => by exact_mod_cast hm
  have cast_lt : ∀ m : ℕ, m < n → (m : ℚ) < (n : ℚ) := fun m hm => by exact_mod_cast hm
  refine ⟨fun h => ?_, fun h1 h2 => ?_, fun h1 h2 => ?_, fun h1 h2 => ?_, fun h1 h2 => ?_⟩
  · unfold getScoreLabel
    rw [if_pos (hle 10 (by exact_mod_cast cast_le 10 h))]
  · unfold getScoreLabel
    rw [if_neg (hgt 10 (by exact_mod_cast cast_lt 10 (by omega))),
        if_pos (hle 25 (by exact_mod_cast cast_le 25 h2))]
  · unfold getScoreLabel
    rw [if_neg (hgt 10 (by exact_mod_cast cast_lt 10 (by omega))),
        if_neg (hgt 25 (by exact_mod_cast cast_lt 25 (by omega))),
        if_pos (hle 50 (by exact_mod_cast cast_le 50 h2))]
  · unfold getScoreLabel
    rw [if_neg (hgt 10 (by exact_mod_cast cast_lt 10 (by omega))),
        if_neg (hgt 25 (by exact_mod_cast cast_lt 25 (by omega))),
        if_neg (hgt 50 (by exact_mod_cast cast_lt 50 (by omega))),
        if_pos (hle 75 (by exact_mod_cast cast_le 75 h2))]
  · unfold getScoreLabel
    rw [if_neg (hgt 10 (by exact_mod_cast cast_lt 10 (by omega))),
        if_neg (hgt 25 (by exact_mod_cast cast_lt 25 (by omega))),
        if_neg (hgt 50 (by exact_mod_cast cast_lt 50 (by omega))),
        if_neg (hgt 75 (by exact_mod_cast cast_lt 75 (by omega)))]

/-- C4 (witness): the band theorem applied at each boundary score. -/
theorem getScoreLabel_bands_witness :
    getScoreLabel (JSVal.num ((10 : ℕ) : ℚ)) = ScoreLabel.veryHuman ∧
    getScoreLabel (JSVal.num ((11 : ℕ) : ℚ)) = ScoreLabel.mostlyHuman ∧
    getScoreLabel (JSVal.num ((25 : ℕ) : ℚ)) = ScoreLabel.mostlyHuman ∧
    getScoreLabel (JSVal.num ((26 : ℕ) : ℚ)) = ScoreLabel.someAI ∧
    getScoreLabel (JSVal.num ((50 : ℕ) : ℚ)) = ScoreLabel.someAI ∧
    getScoreLabel (JSVal.num ((51 : ℕ) : ℚ)) = ScoreLabel.likelyAI ∧
    getScoreLabel (JSVal.num ((75 : ℕ) : ℚ)) = ScoreLabel.likelyAI ∧
    getScoreLabel (JSVal.num ((76 : ℕ) : ℚ)) = ScoreLabel.veryAI :=
  ⟨(getScoreLabel_bands 10).1 (by omega),
   (getScoreLabel_bands 11).2.1 (by omega) (by omega),
   (getScoreLabel_bands 25).2.1 (by omega) (by omega),
   (getScoreLabel_bands 26).2.2.1 (by omega) (by omega),
   (getScoreLabel_bands 50).2.2.1 (by omega) (by omega),
   (getScoreLabel_bands 51).2.2.2.1 (by omega) (by omega),
   (getScoreLabel_bands 75).2.2.2.1 (by omega) (by omega),
   (getScoreLabel_bands 76).2.2.2.2 (by omega) (by omega)⟩

/-- C10: `getScoreLabel` is total over the score value type: every
value for which none of the four comparisons holds — rationals above
75 (hence any value above 100), `NaN`, and `+Infinity` — gets the top
band, and every negative value (including `-Infinity`) gets
"Very Human". -/
theorem getScoreLabel_total (q : ℚ) :
    (75 < q → getScoreLabel (JSVal.num q) = ScoreLabel.veryAI) ∧
    (q < 0 → getScoreLabel (JSVal.num q) = ScoreLabel.veryHuman) ∧
    getScoreLabel JSVal.nan = ScoreLabel.veryAI ∧
    getScoreLabel JSVal.inf = ScoreLabel.veryAI ∧
    getScoreLabel JSVal.neginf = ScoreLabel.veryHuman := by
  refine ⟨fun h => ?_, fun h => ?_, rfl, rfl, rfl⟩
  · have hgt : ∀ c : ℚ, c < q → ¬ jsLe (JSVal.num q) c = true := by
      intro c hc
      simp only [jsLe, decide_eq_true_eq, not_le]
      exact hc
    unfold getScoreLabel
    rw [if_neg (hgt 10 (by linarith)), if_neg (hgt 25 (by linarith)),
        if_neg (hgt 50 (by linarith)), if_neg (hgt 75 (by linarith))]
  · unfold getScoreLabel
    rw [if_pos]
    simp only [jsLe, decide_eq_true_eq]
    linarith

/-- C10 (witness): the totality theorem applied at the concrete values
101 and -3, plus the `NaN` case. -/
theorem getScoreLabel_total_witness :
    ((75 : ℚ) < 101 ∧ getScoreLabel (JSVal.num 101) = ScoreLabel.veryAI) ∧
    ((-3 : ℚ) < 0 ∧ getScoreLabel (JSVal.num (-3)) = ScoreLabel.veryHuman) ∧
    getScoreLabel JSVal.nan = ScoreLabel.veryAI :=
  ⟨⟨by norm_num, (getScoreLabel_total 101).1 (by norm_num)⟩,
   ⟨by norm_num, (getScoreLabel_total (-3)).2.1 (by norm_num)⟩,
   (getScoreLabel_total 0).2.2.1⟩

/-! ## Empty-input behaviour of the pipeline -/

/-- C1 (failing case): on the empty input, `analyzeText` yields
`totalWeight = 0` and `wordCount = 0`, so `calculateScore` computes
`0 / 0 = NaN`; the result is not a number, in particular not an integer
in `[0, 100]`. -/
theorem calculateScore_empty_nan :
    calculateScore (analyzeText ("").data) = JSVal.nan ∧
      ∀ n : ℕ, calculateScore (analyzeText ("").data) ≠ JSVal.num ((n : ℚ)) := by
  have h : calculateScore (analyzeText ("").data) = JSVal.nan := by decide
  exact ⟨h, fun n hn => by rw [h] at hn; exact JSVal.noConfusion hn⟩

/-! ## Structural lemmas about the matcher -/

/-- Membership in `bindL`. -/
theorem mem_bindL {α β : Type} {l : List α} {f : α → List β} {b : β} :
    b ∈ bindL l f ↔ ∃ a ∈ l, b ∈ f a := by
  induction l with
  | nil => simp [bindL]
  | cons x xs ih => simp [bindL, ih]

/-- `bindL` of a pointwise-empty function is empty. -/
theorem bindL_eq_nil {α β : Type} {l : List α} {f : α → List β}
    (h : ∀ a ∈ l, f a = []) : bindL l f = [] := by
  induction l with
  | nil => rfl
  | cons x xs ih =>
    simp only [bindL, h x (by simp)]
    exact ih (fun a ha => h a (by simp [ha]))

/-- Every state of a star walk keeps a suffix of the remaining text. -/
theorem starWalk_rest_suffix (ci : Bool) (c : CharCls) :
    ∀ rest pv p, ∀ st' ∈ starWalk ci c pv rest p, st'.rest <:+ rest := by
  intro rest
  induction rest with
  | nil =>
    intro pv p st' h
    simp only [starWalk, List.mem_singleton] at h
    subst h
    exact List.suffix_rfl
  | cons ch rs ih =>
    intro pv p st' h
    simp only [starWalk, List.mem_cons] at h
    rcases h with h | h
    · subst h; exact List.suffix_rfl
    · by_cases hm : clsMatch ci c ch = true
      · rw [if_pos hm] at h
        exact (ih (some ch) (p + 1) st' h).trans (List.suffix_cons ch rs)
      · rw [if_neg hm] at h
        simp at h

/-- Every end state of a match keeps a suffix of the remaining text. -/
theorem ends_rest_suffix (ci : Bool) :
    ∀ r st, ∀ st' ∈ ends ci r st, st'.rest <:+ st.rest := by
  intro r
  induction r with
  | eps =>
    intro st st' h
    simp only [ends, List.mem_singleton] at h
    subst h
    exact List.suffix_rfl
  | cls c =>
    intro st st' h
    rcases st with ⟨pv, rest, p⟩
    cases rest with
    | nil => simp [ends] at h
    | cons ch rs =>
      simp only [ends] at h
      by_cases hm : clsMatch ci c ch = true
      · rw [if_pos hm] at h
        simp only [List.mem_singleton] at h
        subst h
        exact (List.suffix_cons ch rs)
      · rw [if_neg hm] at h
        simp at h
  | seq a b iha ihb =>
    intro st st' h
    simp only [ends] at h
    rw [mem_bindL] at h
    obtain ⟨m, hm, h'⟩ := h
    exact (ihb m st' h').trans (iha st m hm)
  | alt a b iha ihb =>
    intro st st' h
    simp only [ends, List.mem_append] at h
    rcases h with h | h
    · exact iha st st' h
    · exact ihb st st' h
  | starC c =>
    intro st st' h
    simp only [ends, List.mem_reverse] at h
    exact starWalk_rest_suffix ci c st.rest st.prev st.pos st' h
  | wb =>
    intro st st' h
    simp only [ends] at h
    by_cases hb : wordB st.prev st.rest = true
    · rw [if_pos hb] at h
      simp only [List.mem_singleton] at h
      subst h
      exact List.suffix_rfl
    · rw [if_neg hb] at h
      simp at h

/-- Position never decreases along a star walk. -/
theorem starWalk_pos_le (ci : Bool) (c : CharCls) :
    ∀ rest pv p, ∀ st' ∈ starWalk ci c pv rest p, p ≤ st'.pos := by
  intro rest
  induction rest with
  | nil =>
    intro pv p st' h
    simp only [starWalk, List.mem_singleton] at h
    subst h
    exact le_refl p
  | cons ch rs ih =>
    intro pv p st' h
    simp only [starWalk, List.mem_cons] at h
    rcases h with h | h
    · subst h; exact le_refl p
    · by_cases hm : clsMatch ci c ch = true
      · rw [if_pos hm] at h
        exact Nat.le_of_succ_le (ih (some ch) (p + 1) st' h)
      · rw [if_neg hm] at h
        simp at h

/-- Position never decreases from start state to end state. -/
theorem ends_pos_le (ci : Bool) :
    ∀ r st, ∀ st' ∈ ends ci r st, st.pos ≤ st'.pos := by
  intro r
  induction r with
  | eps =>
    intro st st' h
    simp only [ends, List.mem_singleton] at h
    subst h
    exact le_refl _
  | cls c =>
    intro st st' h
    rcases st with ⟨pv, rest, p⟩
    cases rest with
    | nil => simp [ends] at h
    | cons ch rs =>
      simp only [ends] at h
      by_cases hm : clsMatch ci c ch = true
      · rw [if_pos hm] at h
        simp only [List.mem_singleton] at h
        subst h
        exact Nat.le_succ p
      · rw [if_neg hm] at h
        simp at h
  | seq a b iha ihb =>
    intro st st' h
    simp only [ends] at h
    rw [mem_bindL] at h
    obtain ⟨m, hm, h'⟩ := h
    exact (iha st m hm).trans (ihb m st' h')
  | alt a b iha ihb =>
    intro st st' h
    simp only [ends, List.mem_append] at h
    rcases h with h | h
    · exact iha st st' h
    · exact ihb st st' h
  | starC c =>
    intro st st' h
    simp only [ends, List.mem_reverse] at h
    exact starWalk_pos_le ci c st.rest st.prev st.pos st' h
  | wb =>
    intro st st' h
    simp only [ends] at h
    by_cases hb : wordB st.prev st.rest = true
    · rw [if_pos hb] at h
      simp only [List.mem_singleton] at h
      subst h
      exact le_refl _
    · rw [if_neg hb] at h
      simp at h

/-! ## White-space-only inputs produce no matches -/

/-- A class passing `rejectsAllWS` matches no white-space character. -/
theorem clsMatch_ws_false {cl : CharCls} (hc : rejectsAllWS cl = true)
    {ch : Char} (hch : jsWs ch = true) (ci : Bool) : clsMatch ci cl ch = false := by
  have hmem : ch ∈ wsChars := by
    have := of_decide_eq_true hch
    exact this
  have hb := List.all_eq_true.mp hc ch hmem
  rw [Bool.and_eq_true, Bool.not_eq_true', Bool.not_eq_true'] at hb
  cases ci
  · exact hb.2
  · exact hb.1

/-- A regex passing `nonWSreq` has no match inside white-space-only
remaining text. -/
theorem ends_ws_nil (ci : Bool) :
    ∀ r st, nonWSreq r = true → (∀ c ∈ st.rest, jsWs c = true) →
      ends ci r st = [] := by
  intro r
  induction r with
  | eps => intro st h _; simp [nonWSreq] at h
  | cls c =>
    intro st h hws
    rcases st with ⟨pv, rest, p⟩
    cases rest with
    | nil => simp [ends]
    | cons ch rs =>
      simp only [ends]
      rw [clsMatch_ws_false h (hws ch (by simp)) ci]
      simp
  | seq a b iha ihb =>
    intro st h hws
    simp only [nonWSreq, Bool.or_eq_true] at h
    rcases h with h | h
    · simp only [ends, iha st h hws, bindL]
    · simp only [ends]
      apply bindL_eq_nil
      intro m hm
      exact ihb m h
        (fun c hc => hws c ((ends_rest_suffix ci a st m hm).subset hc))
  | alt a b iha ihb =>
    intro st h hws
    simp only [nonWSreq, Bool.and_eq_true] at h
    simp only [ends, iha st h.1 hws, ihb st h.2 hws, List.append_nil]
  | starC c => intro st h _; simp [nonWSreq] at h
  | wb => intro st h _; simp [nonWSreq] at h

/-- Leftmost search fails on white-space-only remaining text for a
regex passing `nonWSreq`. -/
theorem seekA_ws_none (ci : Bool) (r : Re) (h : nonWSreq r = true) :
    ∀ rest pv p, (∀ c ∈ rest, jsWs c = true) → seekA ci r pv rest p = none := by
  intro rest
  induction rest with
  | nil =>
    intro pv p hws
    simp [seekA, ends_ws_nil ci r ⟨pv, [], p⟩ h (by simp)]
  | cons ch rs ih =>
    intro pv p hws
    simp only [seekA]
    rw [ends_ws_nil ci r ⟨pv, ch :: rs, p⟩ h hws]
    exact ih (some ch) (p + 1) (fun c hc => hws c (by simp [hc]))

/-- Global scan is empty on white-space-only text for a regex passing
`nonWSreq`. -/
theorem scanAll_ws_nil (ci : Bool) (r : Re) (h : nonWSreq r = true)
    (t : List Char) (hws : ∀ c ∈ t, jsWs c = true) : scanAll ci t r = [] := by
  unfold scanAll
  cases ht : t.length + 2 with
  | zero => simp [scanAux]
  | succ n => simp [scanAux, seekA_ws_none ci r h t none 0 hws]

/-- Every pattern of the catalog requires a non-white-space character. -/
theorem catalog_nonWS :
    PATTERNS.all (fun cat => cat.pats.all (fun pr => nonWSreq pr.2)) = true := by decide

/-- A category of the catalog has no match in white-space-only text. -/
theorem categoryMatches_ws_nil (t : List Char) (hws : ∀ c ∈ t, jsWs c = true)
    (cat : PatCategory) (hcat : cat ∈ PATTERNS) : categoryMatches t cat = [] := by
  unfold categoryMatches
  apply bindL_eq_nil
  intro pr hpr
  have hnw : nonWSreq pr.2 = true :=
    List.all_eq_true.mp (List.all_eq_true.mp catalog_nonWS cat hcat) pr hpr
  rw [scanAll_ws_nil pr.1 pr.2 hnw t hws]
  rfl

/-- The category loop returns the empty aggregate when every category
has no match. -/
theorem scanCats_all_nil (t : List Char) :
    ∀ l : List PatCategory, (∀ cat ∈ l, categoryMatches t cat = []) →
      scanCats t l = ([], [], 0) := by
  intro l
  induction l with
  | nil => intro _; rfl
  | cons cat others ih =>
    intro h
    simp only [scanCats, h cat (by simp), List.length_nil]
    simp only [Nat.lt_irrefl, if_false]
    exact ih (fun c hc => h c (by simp [hc]))

/-- White-space-only text has word count 0. -/
theorem cwAux_ws : ∀ t : List Char, (∀ c ∈ t, jsWs c = true) → ∀ b, cwAux t b = 0 := by
  intro t
  induction t with
  | nil => intro _ b; rfl
  | cons c cs ih =>
    intro h b
    simp only [cwAux, h c (by simp), if_true]
    exact ih (fun x hx => h x (by simp [hx])) false

/-- C2: on every empty or white-space-only input, `analyzeText` yields
word count 0, no category entries, no matches and total weight 0, and
then `calculateScore` computes `0 / 0 = NaN` (not the score 0 required
by the specification) and the label falls through to the top band
"Very AI-like" (not "Very Human"). -/
theorem analyzeText_ws (t : List Char) (hws : ∀ c ∈ t, jsWs c = true) :
    analyzeText t = ⟨[], [], 0, 0⟩ ∧
    calculateScore (analyzeText t) = JSVal.nan ∧
    getScoreLabel (calculateScore (analyzeText t)) = ScoreLabel.veryAI := by
  have h1 : scanCats t PATTERNS = ([], [], 0) :=
    scanCats_all_nil t PATTERNS (fun cat hcat => categoryMatches_ws_nil t hws cat hcat)
  have h2 : countWords t = 0 := cwAux_ws t hws false
  have h3 : analyzeText t = ⟨[], [], 0, 0⟩ := by
    unfold analyzeText
    rw [h1, h2]
  refine ⟨h3, ?_, ?_⟩ <;> rw [h3] <;> decide

/-- C2 (witness): the white-space theorem applied to the one-space
input. -/
theorem analyzeText_ws_witness :
    (∀ c ∈ (" ").data, jsWs c = true) ∧
    (analyzeText ((" ").data) = ⟨[], [], 0, 0⟩ ∧
     calculateScore (analyzeText ((" ").data)) = JSVal.nan ∧
     getScoreLabel (calculateScore (analyzeText ((" ").data))) = ScoreLabel.veryAI) :=
  ⟨by decide, analyzeText_ws ((" ").data) (by decide)⟩

/-! ## Aggregation closed forms (the category loop) -/

/-- The included category entries are exactly the categories with at
least one match, in catalog order, built by `mkCatResult`. -/
theorem scanCats_patterns (t : List Char) :
    ∀ l : List PatCategory,
      (scanCats t l).1 =
        (l.filter (fun c => decide (0 < (categoryMatches t c).length))).map (mkCatResult t) := by
  intro l
  induction l with
  | nil => rfl
  | cons cat others ih =>
    by_cases h : 0 < (categoryMatches t cat).length
    · simp only [scanCats, if_pos h, List.filter_cons, decide_eq_true h, List.map_cons, ih]
      rfl
    · simp only [scanCats, if_neg h, List.filter_cons, decide_eq_false h, ih]
      simp

/-- The weighted total is the sum of weight times match count over the
whole catalog (categories without matches contribute zero). -/
theorem scanCats_weight (t : List Char) :
    ∀ l : List PatCategory,
      (scanCats t l).2.2 =
        (l.map (fun c => c.weight * (categoryMatches t c).length)).sum := by
  intro l
  induction l with
  | nil => rfl
  | cons cat others ih =>
    by_cases h : 0 < (categoryMatches t cat).length
    · simp only [scanCats, if_pos h, List.map_cons, List.sum_cons, ih]
    · simp only [scanCats]
      rw [if_neg h]
      have h0 : (categoryMatches t cat).length = 0 := by omega
      simp [List.map_cons, List.sum_cons, ih, h0]

/-- Summing weight times count over the included categories equals
summing over the whole catalog. -/
theorem sum_filter_pos (t : List Char) :
    ∀ l : List PatCategory,
      ((l.filter (fun c => decide (0 < (categoryMatches t c).length))).map
          (fun c => c.weight * (categoryMatches t c).length)).sum =
        (l.map (fun c => c.weight * (categoryMatches t c).length)).sum := by
  intro l
  induction l with
  | nil => rfl
  | cons cat others ih =>
    by_cases h : 0 < (categoryMatches t cat).length
    · simp [List.filter_cons, h, ih]
    · have h0 : (categoryMatches t cat).length = 0 := by omega
      simp [List.filter_cons, h, ih, h0]

/-- C5: for every input, a category appears in the result exactly when
it has at least one match — the entry records its match list and its
count equals that list's length (`mkCatResult`) — and the total weight
equals the sum over the included categories of weight times count. -/
theorem analyzeText_aggregation (t : List Char) :
    (analyzeText t).patterns =
      (PATTERNS.filter (fun c => decide (0 < (categoryMatches t c).length))).map (mkCatResult t) ∧
    (analyzeText t).totalWeight =
      (((analyzeText t).patterns).map (fun cr => cr.weight * cr.count)).sum := by
  constructor
  · exact scanCats_patterns t PATTERNS
  · show (scanCats t PATTERNS).2.2 = _
    rw [scanCats_weight t PATTERNS]
    show _ = (((scanCats t PATTERNS).1).map (fun cr => cr.weight * cr.count)).sum
    rw [scanCats_patterns t PATTERNS, List.map_map]
    exact (sum_filter_pos t PATTERNS).symm

/-! ## Score monotonicity in the match counts -/

/-- C7 (amended): comparing two texts with the same positive word
count, if no pattern category has fewer matches in the second text,
then the weighted total does not decrease, and hence the score does not
decrease. -/
theorem score_monotone (t1 t2 : List Char) (h1 : 1 ≤ countWords t1)
    (heq : countWords t1 = countWords t2)
    (hc : ∀ cat ∈ PATTERNS,
        (categoryMatches t1 cat).length ≤ (categoryMatches t2 cat).length) :
    (analyzeText t1).totalWeight ≤ (analyzeText t2).totalWeight ∧
    ∃ q1 q2 : ℚ, calculateScore (analyzeText t1) = JSVal.num q1 ∧
      calculateScore (analyzeText t2) = JSVal.num q2 ∧ q1 ≤ q2 := by
  have htw : (analyzeText t1).totalWeight ≤ (analyzeText t2).totalWeight := by
    show (scanCats t1 PATTERNS).2.2 ≤ (scanCats t2 PATTERNS).2.2
    rw [scanCats_weight t1 PATTERNS, scanCats_weight t2 PATTERNS]
    exact List.sum_le_sum (fun c hcm => Nat.mul_le_mul_left _ (hc c hcm))
  refine ⟨htw, ?_⟩
  have hw1 : (analyzeText t1).wordCount = countWords t1 := rfl
  have hw2 : (analyzeText t2).wordCount = countWords t2 := rfl
  rw [calculateScore_of_pos (analyzeText t1) (by rw [hw1]; omega),
      calculateScore_of_pos (analyzeText t2) (by rw [hw2, ← heq]; omega)]
  refine ⟨_, _, rfl, rfl, ?_⟩
  have hwpos : (0 : ℚ) < ((analyzeText t1).wordCount : ℚ) := by
    rw [hw1]
    exact_mod_cast h1
  have hx : ((analyzeText t1).totalWeight : ℚ) / ((analyzeText t1).wordCount : ℚ) * 100 * 5 ≤
      ((analyzeText t2).totalWeight : ℚ) / ((analyzeText t2).wordCount : ℚ) * 100 * 5 := by
    have hwc : ((analyzeText t2).wordCount : ℚ) = ((analyzeText t1).wordCount : ℚ) := by
      rw [hw1, hw2, heq]
    rw [hwc]
    have hd : ((analyzeText t1).totalWeight : ℚ) / ((analyzeText t1).wordCount : ℚ) ≤
        ((analyzeText t2).totalWeight : ℚ) / ((analyzeText t1).wordCount : ℚ) :=
      (div_le_div_iff_of_pos_right hwpos).mpr (by exact_mod_cast htw)
    have h100 : ((analyzeText t1).totalWeight : ℚ) / ((analyzeText t1).wordCount : ℚ) * 100 ≤
        ((analyzeText t2).totalWeight : ℚ) / ((analyzeText t1).wordCount : ℚ) * 100 :=
      mul_le_mul_of_nonneg_right hd (by norm_num)
    exact mul_le_mul_of_nonneg_right h100 (by norm_num)
  have hfloor : (⌊((analyzeText t1).totalWeight : ℚ) / ((analyzeText t1).wordCount : ℚ) * 100 * 5
        + 1/2⌋ : ℤ) ≤
      ⌊((analyzeText t2).totalWeight : ℚ) / ((analyzeText t2).wordCount : ℚ) * 100 * 5 + 1/2⌋ :=
    Int.floor_mono (by linarith)
  exact_mod_cast min_le_min (le_refl (100 : ℤ)) hfloor

/-- C7 (counterexample to the claim as stated): the pattern
`\bdelve\b` (AI Vocabulary) matches the text "delve"; appending one
more occurrence of that pattern gives "delvedelve", which has the same
word count as the space-padded original "delve     " of the same
length, yet the weighted total drops from 2 to 0 (the appended copy
destroys the word boundary) and the score drops from 100 to 0. -/
theorem append_occurrence_decreases :
    (("delve     ").data).length = (("delvedelve").data).length ∧
    countWords (("delve     ").data) = 1 ∧
    countWords (("delvedelve").data) = 1 ∧
    ("delvedelve").data = ("delve").data ++ ("delve").data ∧
    scanAll true (("delve     ").data) (bword "delve") ≠ [] ∧
    (analyzeText (("delve     ").data)).totalWeight = 2 ∧
    (analyzeText (("delvedelve").data)).totalWeight = 0 ∧
    calculateScore (analyzeText (("delve     ").data)) = JSVal.num 100 ∧
    calculateScore (analyzeText (("delvedelve").data)) = JSVal.num 0 := by
  have hw1 : (analyzeText (("delve     ").data)).totalWeight = 2 := by decide
  have hw2 : (analyzeText (("delvedelve").data)).totalWeight = 0 := by decide
  have hc1 : (analyzeText (("delve     ").data)).wordCount = 1 := by decide
  have hc2 : (analyzeText (("delvedelve").data)).wordCount = 1 := by decide
  refine ⟨by decide, by decide, by decide, by decide, by decide, hw1, hw2, ?_, ?_⟩
  · rw [calculateScore_of_pos _ (by rw [hc1]; omega), hw1, hc1]
    norm_num
  · rw [calculateScore_of_pos _ (by rw [hc2]; omega), hw2, hc2]
    norm_num

/-- C7 (witness): the count-monotonicity theorem applied to the
concrete texts "delve x" and "delve delve". -/
theorem score_monotone_witness :
    1 ≤ countWords (("delve x").data) ∧
    countWords (("delve x").data) = countWords (("delve delve").data) ∧
    (∀ cat ∈ PATTERNS,
      (categoryMatches (("delve x").data) cat).length ≤
        (categoryMatches (("delve delve").data) cat).length) ∧
    ((analyzeText (("delve x").data)).totalWeight ≤
        (analyzeText (("delve delve").data)).totalWeight ∧
     ∃ q1 q2 : ℚ, calculateScore (analyzeText (("delve x").data)) = JSVal.num q1 ∧
       calculateScore (analyzeText (("delve delve").data)) = JSVal.num q2 ∧ q1 ≤ q2) :=
  ⟨by decide, by decide, by decide,
   score_monotone (("delve x").data) (("delve delve").data) (by decide) (by decide) (by decide)⟩

/-! ## Determinism and match order -/

/-- The head of a list is a member. -/
theorem head?_mem {α : Type} {l : List α} {a : α} (h : l.head? = some a) : a ∈ l := by
  cases l with
  | nil => simp at h
  | cons x xs =>
    simp only [List.head?_cons, Option.some.injEq] at h
    subst h
    simp

/-- A successful leftmost search starts at or after the current
position, and ends at or after its start. -/
theorem seekA_pos (ci : Bool) (r : Re) :
    ∀ rest pv p sst est, seekA ci r pv rest p = some (sst, est) →
      p ≤ sst.pos ∧ sst.pos ≤ est.pos := by
  intro rest
  induction rest with
  | nil =>
    intro pv p sst est h
    simp only [seekA, Option.map_eq_some'] at h
    obtain ⟨en, hen, hpair⟩ := h
    obtain ⟨h1, h2⟩ := Prod.mk.injEq .. |>.mp hpair
    subst h1
    subst h2
    exact ⟨le_refl p, ends_pos_le ci r ⟨pv, [], p⟩ en (head?_mem hen)⟩
  | cons ch rs ih =>
    intro pv p sst est h
    simp only [seekA] at h
    rcases hh : (ends ci r ⟨pv, ch :: rs, p⟩).head? with _ | en
    · rw [hh] at h
      have := ih (some ch) (p + 1) sst est h
      exact ⟨by omega, this.2⟩
    · rw [hh] at h
      simp only [Option.some.injEq] at h
      obtain ⟨h1, h2⟩ := Prod.mk.injEq .. |>.mp h
      subst h1
      subst h2
      exact ⟨le_refl p, ends_pos_le ci r ⟨pv, ch :: rs, p⟩ en (head?_mem hh)⟩

/-- Scan results start at or after the scan position and their start
positions are strictly increasing. -/
theorem scanAux_increasing (ci : Bool) (r : Re) :
    ∀ fuel pv rest p,
      (∀ m ∈ scanAux ci r fuel pv rest p, p ≤ m.1) ∧
      List.Pairwise (fun a b => a.1 < b.1) (scanAux ci r fuel pv rest p) := by
  intro fuel
  induction fuel with
  | zero => intro pv rest p; simp [scanAux]
  | succ fuel ih =>
    intro pv rest p
    rcases hs : seekA ci r pv rest p with _ | ⟨sst, est⟩
    · simp [scanAux, hs]
    · obtain ⟨hps, hse⟩ := seekA_pos ci r rest pv p sst est hs
      by_cases hlt : sst.pos < est.pos
      · simp only [scanAux, hs, if_pos hlt]
        obtain ⟨hlb, hpw⟩ := ih est.prev est.rest est.pos
        constructor
        · intro m hm
          rcases List.mem_cons.mp hm with hm | hm
          · subst hm; exact hps
          · have := hlb m hm; omega
        · exact List.Pairwise.cons (fun b hb => by have := hlb b hb; omega) hpw
      · simp only [scanAux, hs, if_neg hlt]
        cases hr : sst.rest with
        | nil => simpa using hps
        | cons ch rs =>
          obtain ⟨hlb, hpw⟩ := ih (some ch) rs (sst.pos + 1)
          constructor
          · intro m hm
            rcases List.mem_cons.mp hm with hm | hm
            · subst hm; exact hps
            · have := hlb m hm; omega
          · exact List.Pairwise.cons (fun b hb => by have := hlb b hb; omega) hpw

/-- C9 (amended): analysis is deterministic — a pure function of the
text, so two runs agree definitionally — and within each category the
match list is grouped by pattern rule in catalog order, each rule's
global scan having strictly increasing match positions. -/
theorem analyzeText_deterministic (t : List Char) :
    analyzeText t = analyzeText t ∧
    ∀ cat ∈ PATTERNS, ∀ pr ∈ cat.pats,
      List.Pairwise (fun a b => a < b) ((scanAll pr.1 t pr.2).map Prod.fst) := by
  refine ⟨rfl, ?_⟩
  intro cat _ pr _
  rw [List.pairwise_map]
  exact (scanAux_increasing pr.1 pr.2 (t.length + 2) none t 0).2

/-- C9 (counterexample to position-sortedness): on the input
"enhanced crucial" the AI-vocabulary category lists the `crucial` match
(position 9) before the `enhance[ds]?` match (position 0), because the
`crucial` rule precedes the `enhance` rule in the catalog; the match
list is therefore not ordered by position. -/
theorem matchList_not_position_sorted :
    (analyzeText (("enhanced crucial").data)).patterns.map
        (fun c => (c.key, c.matchList.map (fun m => m.index))) =
      [("ai_vocabulary", [9, 0])] ∧
    ¬ List.Pairwise (fun a b => a ≤ b) ([9, 0] : List Nat) := by
  constructor
  · decide
  · decide

/-- C9 (witness): the determinism theorem applied to the text "--a--"
and the double-hyphen rule of the em-dash category. -/
theorem analyzeText_deterministic_witness :
    analyzeText (("--a--").data) = analyzeText (("--a--").data) ∧
    List.Pairwise (fun a b => a < b)
      ((scanAll false (("--a--").data) (lits "--")).map Prod.fst) :=
  ⟨(analyzeText_deterministic (("--a--").data)).1,
   (analyzeText_deterministic (("--a--").data)).2 emDashCat (by decide)
     (false, lits "--") (by decide)⟩

/-! ## The high-AI scenario -/

/-- C6: on the scenario input, the promotional, inflated-significance
and AI-vocabulary categories all have at least one match, the score is
100 — hence at least 50 — and the label is in the top two bands
(here "Very AI-like"). -/
theorem c6_scenario :
    (∃ cr ∈ (analyzeText c6text).patterns, cr.key = "promotional" ∧ 1 ≤ cr.count) ∧
    (∃ cr ∈ (analyzeText c6text).patterns, cr.key = "inflated_significance" ∧ 1 ≤ cr.count) ∧
    (∃ cr ∈ (analyzeText c6text).patterns, cr.key = "ai_vocabulary" ∧ 1 ≤ cr.count) ∧
    (∃ q : ℚ, calculateScore (analyzeText c6text) = JSVal.num q ∧ 50 ≤ q) ∧
    (getScoreLabel (calculateScore (analyzeText c6text)) = ScoreLabel.likelyAI ∨
     getScoreLabel (calculateScore (analyzeText c6text)) = ScoreLabel.veryAI) := by
  have hk : (analyzeText c6text).patterns.map (fun c => (c.key, c.count)) =
      [("inflated_significance", 1), ("promotional", 2), ("ai_vocabulary", 1),
       ("copula_avoidance", 1)] := by decide
  have htw : (analyzeText c6text).totalWeight = 13 := by decide
  have hwc : (analyzeText c6text).wordCount = 12 := by decide
  have hs : calculateScore (analyzeText c6text) = JSVal.num 100 := by
    rw [calculateScore_of_pos _ (by rw [hwc]; omega), htw, hwc]
    norm_num
  have hmem : ∀ kc : String × Nat,
      kc ∈ (analyzeText c6text).patterns.map (fun c => (c.key, c.count)) →
      ∃ cr ∈ (analyzeText c6text).patterns, cr.key = kc.1 ∧ cr.count = kc.2 := by
    intro kc hkc
    obtain ⟨cr, hcr, he⟩ := List.mem_map.mp hkc
    refine ⟨cr, hcr, ?_, ?_⟩
    · exact congrArg Prod.fst he
    · exact congrArg Prod.snd he
  refine ⟨?_, ?_, ?_, ⟨100, hs, by norm_num⟩, Or.inr ?_⟩
  · obtain ⟨cr, hcr, h1, h2⟩ := hmem ("promotional", 2) (by rw [hk]; simp)
    exact ⟨cr, hcr, h1, by omega⟩
  · obtain ⟨cr, hcr, h1, h2⟩ := hmem ("inflated_significance", 1) (by rw [hk]; simp)
    exact ⟨cr, hcr, h1, by omega⟩
  · obtain ⟨cr, hcr, h1, h2⟩ := hmem ("ai_vocabulary", 1) (by rw [hk]; simp)
    exact ⟨cr, hcr, h1, by omega⟩
  · rw [hs]
    decide

/-! ## Context window refinement -/

/-- Dropping after taking is taking after dropping. -/
theorem slice_swap (t : List Char) (lo hi : Nat) :
    (t.take hi).drop lo = (t.drop lo).take (hi - lo) := by
  rw [List.take_drop]
  rcases Nat.le_total lo hi with h | h
  · have he : lo + (hi - lo) = hi := by omega
    rw [he]
  · have h1 : hi - lo = 0 := by omega
    rw [h1, Nat.add_zero]
    rw [List.drop_eq_nil_of_le, List.drop_eq_nil_of_le]
    · simp only [List.length_take]
      omega
    · simp only [List.length_take]
      omega

/-- C8: `getContext` returns exactly the context window described by
the specification: the slice of the text from 40 characters before the
match start to 40 characters after the match end, clipped to the
document bounds, with a leading ellipsis exactly when characters before
the window were cut off and a trailing ellipsis exactly when characters
after the window were cut off. -/
theorem getContext_correct (t : List Char) (index mlen : Nat) :
    getContext t index mlen = contextSpec t index mlen := by
  unfold getContext contextSpec sliceList
  dsimp only
  have hlo : (max 0 ((index : ℤ) - 40)).toNat = if index < 40 then 0 else index - 40 := by
    split <;> omega
  have hhi : min t.length (index + mlen + 40) =
      if index + mlen + 40 ≤ t.length then index + mlen + 40 else t.length := by
    split <;> omega
  rw [hlo, hhi, slice_swap]
  have hle : (if index + mlen + 40 ≤ t.length then index + mlen + 40 else t.length) ≤
      t.length := by
    split <;> omega
  generalize hL : (if index < 40 then 0 else index - 40) = lo
  generalize hH : (if index + mlen + 40 ≤ t.length then index + mlen + 40 else t.length) = hi
    at hle ⊢
  congr 1
  · by_cases hz : lo = 0
    · rw [hz]
      rw [if_neg (by omega : ¬ (0:ℕ) < 0), if_neg (by omega : ¬ (0:ℕ) ≠ 0)]
    · rw [if_pos (by omega : 0 < lo), if_pos hz]
  · congr 1
    exact propext ⟨fun hh => by omega, fun hh => by omega⟩
